import Mathlib

/-!
Verification development for the process-attach utility: the `ps` line
parser (`parseLineFromPs`), the process lister (`getAttachItems`) and the
interactive selection workflow (`chooseProcess` / `pickProcess`).

The TypeScript source is embedded shallowly:

* Strings are Lean `String`s (in this toolchain a structure over
  `List Char`), and the fixed regular expression
  `^\s*([0-9]+)\s+(.{uw-1})\s+(.{cw-1})\s+(.*)$` built by
  `parseLineFromPs` is embedded as a deterministic backtracking matcher
  specialised to that pattern: greedy quantifiers try their longest
  viable extent first, exactly as the JavaScript engine does.  Because
  the character classes `\s` and `[0-9]` are disjoint, the leading
  `\s*([0-9]+)` part of an anchored match is forced to be the maximal
  whitespace run followed by the maximal digit run, so only the three
  inner `\s+` gaps need explicit backtracking (`tryFrom` below).
* JavaScript `\s` (which coincides with the set trimmed by
  `String.prototype.trim`) and the `.` class (any character except a
  line terminator) are reproduced exactly (`jsWhitespace`, `jsDot`).
* Width arguments are `Int` because the source does not validate them.
  For a width `w ≤ 0` the interpolated quantifier `{w-1}` is not valid
  quantifier syntax, and the ECMAScript grammar (Annex B) then treats
  the brace as a literal character, so the group pattern becomes `.`
  followed by the literal text `\x7b w-1 \x7d`; `fieldPat` reproduces
  both readings.
* `Number(...)` applied to the all-digit pid capture and
  `Number.prototype.toString` are embedded as exact decimal
  conversions on `Nat` (`natOfDigits`, `numberToString`).
* The external command execution (`child_process.exec`) is an input: an
  `ExecResult` carrying the destructured `error`, `stdout` and `stderr`
  values.  The external QuickPick UI is an input function returning the
  chosen item or `none`.  Thrown `Error`s become `Except.error` carrying
  the message string.
-/

set_option maxRecDepth 20000

/-- The set matched by JavaScript `\s` (WhiteSpace ∪ LineTerminator);
`String.prototype.trim` strips exactly this set. -/
def jsWhitespace (c : Char) : Bool :=
  c.toNat = 32 || c.toNat = 9 || c.toNat = 10 || c.toNat = 11 || c.toNat = 12 ||
  c.toNat = 13 || c.toNat = 0xa0 || c.toNat = 0x1680 ||
  (0x2000 ≤ c.toNat && c.toNat ≤ 0x200a) || c.toNat = 0x2028 || c.toNat = 0x2029 ||
  c.toNat = 0x202f || c.toNat = 0x205f || c.toNat = 0x3000 || c.toNat = 0xfeff

/-- The set matched by JavaScript `.` (without the `s` flag): any character
except the four line terminators LF, CR, LS, PS. -/
def jsDot (c : Char) : Bool :=
  !(c.toNat = 10 || c.toNat = 13 || c.toNat = 0x2028 || c.toNat = 0x2029)

/-- The class `[0-9]`. -/
def isDigitChar (c : Char) : Bool :=
  48 ≤ c.toNat && c.toNat ≤ 57

/-- JavaScript `String.prototype.trim` on a character list. -/
def jsTrim (l : List Char) : List Char :=
  ((l.dropWhile jsWhitespace).reverse.dropWhile jsWhitespace).reverse

/-- Decimal value of a digit string, as computed by `Number(...)` on an
all-digit string (modelled exactly on `Nat`). -/
def natOfDigits (l : List Char) : Nat :=
  l.foldl (fun a c => 10 * a + (c.toNat - 48)) 0

/-- The decimal digit character for `d < 10`. -/
def digitChar (d : Nat) : Char := Char.ofNat (48 + d)

/-- Fuel-driven accumulator loop producing the decimal digits of `n`
(most significant first), prepended to `acc`. -/
def decAux : Nat → Nat → List Char → List Char
  | 0, _, acc => acc
  | fuel + 1, n, acc =>
    if n < 10 then digitChar n :: acc
    else decAux fuel (n / 10) (digitChar (n % 10) :: acc)

/-- `Number.prototype.toString` for a non-negative integer: its decimal
digit string. -/
def numberToString (n : Nat) : String :=
  String.mk (decAux (n + 1) n [])

/-- A field pattern of the built regular expression: `fixed n` is the
quantified group `(.{n})`; `lit s` is the Annex-B literal reading
`(.` followed by the literal characters `s` and `)`, which arises when
the interpolated repetition count is negative. -/
inductive FieldPat where
  | fixed (n : Nat) : FieldPat
  | lit (s : List Char) : FieldPat
deriving DecidableEq

/-- The group pattern `(.{w-1})` produced by interpolating width `w`:
a valid quantifier when `w - 1 ≥ 0`, otherwise `.` followed by the
literal text `\x7b`, the decimal form of `w - 1`, `\x7d`. -/
def fieldPat (w : Int) : FieldPat :=
  if 1 ≤ w then .fixed (w - 1).toNat
  else .lit ('\x7b' :: (toString (w - 1)).data ++ ['\x7d'])

/-- Match one field pattern at the head of `cs`; on success return the
captured group and the remaining characters.  Both readings are
deterministic (no quantifier choice inside a field). -/
def matchField : FieldPat → List Char → Option (List Char × List Char)
  | .fixed n, cs =>
    if (cs.take n).length = n && (cs.take n).all jsDot then some (cs.take n, cs.drop n)
    else none
  | .lit s, cs =>
    match cs with
    | [] => none
    | c :: rest =>
      if jsDot c && s.isPrefixOf rest then some (c :: s, rest.drop s.length)
      else none

/-- Length of the maximal whitespace run at the head of `cs`: the set of
extents a greedy `\s+` can take here is `1 … wsRun cs`. -/
def wsRun (cs : List Char) : Nat :=
  (cs.takeWhile jsWhitespace).length

/-- Greedy quantifier backtracking: try the extents `w, w-1, …, 1` in
order and return the first success.  (`tryFrom k 0` fails: `\s+` needs
at least one character.) -/
def tryFrom (k : Nat → Option α) : Nat → Option α
  | 0 => none
  | s + 1 =>
    match k (s + 1) with
    | some r => some r
    | none => tryFrom k s

/-- Final step of the tail match: after the third `\s+` took `s3`
characters, the remainder must be all dot-class characters (`(.*)$`,
with `$` matching only at the very end of the input). -/
def tailStep3 (g2 g3 r3 : List Char) (s3 : Nat) :
    Option (List Char × List Char × List Char) :=
  if (r3.drop s3).all jsDot then some (g2, g3, r3.drop s3) else none

/-- Middle step: after the second `\s+` took `s2` characters, match the
third group and backtrack greedily over the third `\s+`. -/
def tailStep2 (f3 : FieldPat) (g2 r2 : List Char) (s2 : Nat) :
    Option (List Char × List Char × List Char) :=
  match matchField f3 (r2.drop s2) with
  | none => none
  | some (g3, r3) => tryFrom (tailStep3 g2 g3 r3) (wsRun r3)

/-- First step: after the first `\s+` took `s1` characters, match the
second group and backtrack greedily over the second `\s+`. -/
def tailStep1 (f2 f3 : FieldPat) (cs : List Char) (s1 : Nat) :
    Option (List Char × List Char × List Char) :=
  match matchField f2 (cs.drop s1) with
  | none => none
  | some (g2, r2) => tryFrom (tailStep2 f3 g2 r2) (wsRun r2)

/-- Match `\s+ f2 \s+ f3 \s+ (.*)$` against `cs` (the characters after
the pid digits), returning the three captured groups.  The search order
is exactly the JavaScript engine's: each `\s+` is greedy, later choice
points backtrack first. -/
def matchTail (f2 f3 : FieldPat) (cs : List Char) : Option (List Char × List Char × List Char) :=
  tryFrom (tailStep1 f2 f3 cs) (wsRun cs)

/-- `psEntry.exec(line)` for the pattern
`^\s*([0-9]+)\s+(.{uw-1})\s+(.{cw-1})\s+(.*)$`: the four captured
groups on a match.  The leading `^\s*([0-9]+)` is forced to the maximal
whitespace run followed by the maximal digit run (the two classes are
disjoint, so no shorter choice can ever succeed). -/
def psEntryExec (line : String) (usernameCharacters commandCharacters : Int) :
    Option (List Char × List Char × List Char × List Char) :=
  let cs := line.data.dropWhile jsWhitespace
  let digits := cs.takeWhile isDigitChar
  match digits with
  | [] => none
  | _ =>
    match matchTail (fieldPat usernameCharacters) (fieldPat commandCharacters)
        (cs.dropWhile isDigitChar) with
    | none => none
    | some (m2, m3, m4) => some (digits, m2, m3, m4)

/-- `ProcessItem` from the source: a QuickPick item plus the numeric pid. -/
structure ProcessItem where
  pid : Nat
  label : String
  description : String
  detail : String
deriving DecidableEq, Repr

/-- Build the `ProcessItem` from the four regex captures, exactly as the
match branch of `parseLineFromPs` does: trim each capture, convert the
pid text to a number, and assemble label/description/detail. -/
def mkProcessItem (m1 m2 m3 m4 : List Char) : ProcessItem :=
  let pid := jsTrim m1
  let username := jsTrim m2
  let executable := jsTrim m3
  let cmdline := jsTrim m4
  { pid := natOfDigits pid
  , label := String.mk (username ++ ':' :: executable)
  , description := String.mk pid
  , detail := String.mk cmdline }

/-- `parseLineFromPs(line, usernameCharacters, commandCharacters)`:
run the regular expression; on a match (which for this pattern always
has all five groups, i.e. `matches.length === 5`) build the item,
otherwise return the no-match signal (`undefined` ↦ `none`). -/
def parseLineFromPs (line : String) (usernameCharacters commandCharacters : Int) :
    Option ProcessItem :=
  match psEntryExec line usernameCharacters commandCharacters with
  | some (m1, m2, m3, m4) => some (mkProcessItem m1 m2 m3 m4)
  | none => none

/-- JavaScript `stdout.split('\n')` on a character list. -/
def splitLines : List Char → List (List Char)
  | [] => [[]]
  | c :: t =>
    match splitLines t with
    | [] => [[]]
    | l :: ls => if c = '\n' then [] :: l :: ls else (c :: l) :: ls

/-- JavaScript `haystack.includes(needle)`. -/
def hasInfix (needle : List Char) : List Char → Bool
  | [] => needle.isEmpty
  | c :: t => needle.isPrefixOf (c :: t) || hasInfix needle t

/-- The destructured result of the promisified `exec` call: the `error`,
`stdout` and `stderr` properties (`error` is its JavaScript truthiness). -/
structure ExecResult where
  error : Bool
  stdout : String
  stderr : String

/-- `const usernameCharacters = 20`. -/
def usernameCharacters : Int := 20

/-- `const commandCharacters = 50`. -/
def commandCharacters : Int := 50

/-- The listing command line issued by `getAttachItems`. -/
def attachCommand : String :=
  "ps -ax -o pid,uname:" ++ toString usernameCharacters ++
    ",comm:" ++ toString commandCharacters ++ ",args"

/-- The benign diagnostic substring that is ignored. -/
def screenSizeBogus : String := "screen size is bogus"

/-- The parsing loop of `getAttachItems` over the output lines after the
header: skip falsy (empty) lines, parse the rest, keep the successful
entries in order. -/
def attachLoop : List (List Char) → List ProcessItem
  | [] => []
  | line :: rest =>
    if line = [] then attachLoop rest
    else
      match parseLineFromPs (String.mk line) usernameCharacters commandCharacters with
      | some processEntry => processEntry :: attachLoop rest
      | none => attachLoop rest

/-- `getAttachItems`, given the awaited `exec` result: the stderr gate
(`error || stderr`, with the `screen size is bogus` allowance), then
split the captured stdout on newlines, drop the header line `output[0]`,
and run the parsing loop from index 1. -/
def getAttachItems (res : ExecResult) : Except String (List ProcessItem) :=
  if res.error || !res.stderr.data.isEmpty then
    if !res.stderr.data.isEmpty && hasInfix screenSizeBogus.data res.stderr.data then
      Except.ok (attachLoop ((splitLines res.stdout.data).drop 1))
    else
      Except.error ("Unable to select process to attach to: " ++ res.stderr)
  else
    Except.ok (attachLoop ((splitLines res.stdout.data).drop 1))

/-- `chooseProcess`: obtain the items, present them through the external
QuickPick facility (an input function here), and fail with
`Error('Process not selected')` when nothing was chosen. -/
def chooseProcess (res : ExecResult)
    (showQuickPick : List ProcessItem → Option ProcessItem) : Except String ProcessItem :=
  match getAttachItems res with
  | Except.error e => Except.error e
  | Except.ok items =>
    match showQuickPick items with
    | none => Except.error "Process not selected"
    | some process => Except.ok process

/-- `pickProcess`: run `chooseProcess` and format the chosen item as
`` `${pid}:${label}` ``. -/
def pickProcess (res : ExecResult)
    (showQuickPick : List ProcessItem → Option ProcessItem) : Except String String :=
  match chooseProcess res showQuickPick with
  | Except.error e => Except.error e
  | Except.ok processToReturn =>
    Except.ok (numberToString processToReturn.pid ++ ":" ++ processToReturn.label)

/-- Modelled from the spec: the synthetic round-trip line of §8 — the
pid in decimal, a separating space, the username and the executable
each padded with spaces to exactly the configured column width, then
the command line.  (The spec describes the construction but the
repository contains no builder for it.) -/
def padTo (s : String) (w : Nat) : String :=
  s ++ String.mk (List.replicate (w - s.data.length) ' ')

/-- Modelled from the spec: the full synthetic line for a record with
the given fields (see `padTo`). -/
def synthLine (pid : Nat) (username executable commandLine : String) (uw cw : Nat) : String :=
  numberToString pid ++ " " ++ padTo username uw ++ padTo executable cw ++ commandLine

/-! ## Structural facts about the matcher -/

/-- Structural shape of a captured field group: the quantified reading
`(.{n})` captures exactly `n` dot-class characters; the literal reading
captures one dot-class character followed by the literal brace text. -/
def fieldShape : FieldPat → List Char → Prop
  | .fixed n, g => g.length = n ∧ g.all jsDot = true
  | .lit s, g => ∃ c, jsDot c = true ∧ g = c :: s

theorem isDigitChar_not_ws {c : Char} (h : isDigitChar c = true) :
    jsWhitespace c = false := by
  simp only [isDigitChar, Bool.and_eq_true, decide_eq_true_eq] at h
  simp only [jsWhitespace, Bool.or_eq_false_iff, Bool.and_eq_false_iff,
    decide_eq_false_iff_not]
  omega

theorem isDigitChar_dot {c : Char} (h : isDigitChar c = true) : jsDot c = true := by
  simp only [isDigitChar, Bool.and_eq_true, decide_eq_true_eq] at h
  simp only [jsDot, Bool.or_eq_false_iff, decide_eq_false_iff_not, Bool.not_eq_true']
  omega

theorem tryFrom_eq_some {α} {k : Nat → Option α} {w : Nat} {r : α}
    (h : tryFrom k w = some r) : ∃ s, 1 ≤ s ∧ s ≤ w ∧ k s = some r := by
  induction w with
  | zero => simp [tryFrom] at h
  | succ n ih =>
    rw [tryFrom] at h
    cases hk : k (n + 1) with
    | some r' =>
      rw [hk] at h
      exact ⟨n + 1, by omega, Nat.le_refl _, by rw [hk]; exact h⟩
    | none =>
      rw [hk] at h
      obtain ⟨s, h1, h2, h3⟩ := ih h
      exact ⟨s, h1, by omega, h3⟩

theorem matchField_eq_some {f : FieldPat} {cs g rest : List Char}
    (h : matchField f cs = some (g, rest)) : cs = g ++ rest ∧ fieldShape f g := by
  cases f with
  | fixed n =>
    simp only [matchField] at h
    split at h
    · next hc =>
      simp only [Bool.and_eq_true, decide_eq_true_eq] at hc
      simp only [Option.some.injEq, Prod.mk.injEq] at h
      obtain ⟨rfl, rfl⟩ := h
      exact ⟨(List.take_append_drop n cs).symm, hc.1, hc.2⟩
    · exact absurd h (by simp)
  | lit s =>
    cases cs with
    | nil => simp [matchField] at h
    | cons c rest0 =>
      simp only [matchField] at h
      split at h
      · next hc =>
        simp only [Bool.and_eq_true] at hc
        simp only [Option.some.injEq, Prod.mk.injEq] at h
        obtain ⟨rfl, rfl⟩ := h
        have hpre : s ++ rest0.drop s.length = rest0 :=
          List.prefix_iff_eq_append.mp (List.isPrefixOf_iff_prefix.mp hc.2)
        refine ⟨by simpa using congrArg (c :: ·) hpre.symm, c, hc.1, rfl⟩
      · exact absurd h (by simp)

theorem wsRun_le_length (cs : List Char) : wsRun cs ≤ cs.length :=
  (List.takeWhile_prefix jsWhitespace).length_le

theorem take_all_ws {s : Nat} {l : List Char} (h : s ≤ wsRun l) :
    (l.take s).all jsWhitespace = true := by
  have heq : l.take s = (l.takeWhile jsWhitespace).take s := by
    conv_lhs => rw [← List.takeWhile_append_dropWhile jsWhitespace l]
    rw [List.take_append_eq_append_take]
    have h0 : s - (l.takeWhile jsWhitespace).length = 0 := by
      have := h; unfold wsRun at this; omega
    simp [h0]
  rw [heq]
  refine List.all_eq_true.mpr fun x hx => ?_
  exact List.mem_takeWhile_imp (List.mem_of_mem_take hx)

theorem take_ne_nil_of_le_wsRun {s : Nat} {l : List Char} (h1 : 1 ≤ s) (h2 : s ≤ wsRun l) :
    l.take s ≠ [] := by
  have hl : s ≤ l.length := le_trans h2 (wsRun_le_length l)
  intro hnil
  have := congrArg List.length hnil
  simp only [List.length_take, List.length_nil] at this
  omega

theorem matchTail_eq_some {f2 f3 : FieldPat} {cs g2 g3 g4 : List Char}
    (h : matchTail f2 f3 cs = some (g2, g3, g4)) :
    ∃ s1 s2 s3 : List Char,
      cs = s1 ++ (g2 ++ (s2 ++ (g3 ++ (s3 ++ g4)))) ∧
      s1 ≠ [] ∧ s1.all jsWhitespace = true ∧
      s2 ≠ [] ∧ s2.all jsWhitespace = true ∧
      s3 ≠ [] ∧ s3.all jsWhitespace = true ∧
      fieldShape f2 g2 ∧ fieldShape f3 g3 ∧ g4.all jsDot = true := by
  unfold matchTail at h
  obtain ⟨a1, ha11, ha1w, h1⟩ := tryFrom_eq_some h
  unfold tailStep1 at h1
  cases hm2 : matchField f2 (cs.drop a1) with
  | none => rw [hm2] at h1; exact absurd h1 (by simp)
  | some gr2 =>
    obtain ⟨g2', r2⟩ := gr2
    rw [hm2] at h1
    obtain ⟨a2, ha21, ha2w, h2⟩ := tryFrom_eq_some h1
    unfold tailStep2 at h2
    cases hm3 : matchField f3 (r2.drop a2) with
    | none => rw [hm3] at h2; exact absurd h2 (by simp)
    | some gr3 =>
      obtain ⟨g3', r3⟩ := gr3
      rw [hm3] at h2
      obtain ⟨a3, ha31, ha3w, h3⟩ := tryFrom_eq_some h2
      unfold tailStep3 at h3
      split at h3
      · next hdot =>
        simp only [Option.some.injEq, Prod.mk.injEq] at h3
        obtain ⟨rfl, rfl, rfl⟩ := h3
        obtain ⟨hd2, hs2⟩ := matchField_eq_some hm2
        obtain ⟨hd3, hs3⟩ := matchField_eq_some hm3
        refine ⟨cs.take a1, r2.take a2, r3.take a3, ?_,
          take_ne_nil_of_le_wsRun ha11 ha1w, take_all_ws ha1w,
          take_ne_nil_of_le_wsRun ha21 ha2w, take_all_ws ha2w,
          take_ne_nil_of_le_wsRun ha31 ha3w, take_all_ws ha3w,
          hs2, hs3, hdot⟩
        conv_lhs => rw [← List.take_append_drop a1 cs]
        rw [hd2]
        conv_lhs => rw [← List.take_append_drop a2 r2]
        rw [hd3]
        conv_lhs => rw [← List.take_append_drop a3 r3]
      · exact absurd h3 (by simp)

theorem takeWhile_all_append {p : Char → Bool} {xs : List Char} {y : Char} {rest : List Char}
    (hx : xs.all p = true) (hy : p y = false) :
    (xs ++ y :: rest).takeWhile p = xs := by
  induction xs with
  | nil => simp [List.takeWhile_cons, hy]
  | cons a t ih =>
    simp only [List.all_cons, Bool.and_eq_true] at hx
    simp [List.takeWhile_cons, hx.1, ih hx.2]

theorem dropWhile_all_append_cons {p : Char → Bool} {xs : List Char} {y : Char} {rest : List Char}
    (hx : xs.all p = true) (hy : p y = false) :
    (xs ++ y :: rest).dropWhile p = y :: rest := by
  induction xs with
  | nil => simp [List.dropWhile_cons, hy]
  | cons a t ih =>
    simp only [List.all_cons, Bool.and_eq_true] at hx
    simp [List.dropWhile_cons, hx.1, ih hx.2]

theorem dropWhile_append_all {p : Char → Bool} {l1 l2 : List Char} (h : l1.all p = true) :
    (l1 ++ l2).dropWhile p = l2.dropWhile p := by
  induction l1 with
  | nil => simp
  | cons a t ih =>
    simp only [List.all_cons, Bool.and_eq_true] at h
    simp [List.dropWhile_cons, h.1, ih h.2]

theorem dropWhile_eq_self_of_head {p : Char → Bool} {a : Char} {t : List Char}
    (h : p a = false) : (a :: t).dropWhile p = a :: t := by
  simp [List.dropWhile_cons, h]

theorem head_false_of_dropWhile_eq_self {p : Char → Bool} {a : Char} {t : List Char}
    (h : (a :: t).dropWhile p = a :: t) : p a = false := by
  by_contra hc
  have ha : p a = true := by revert hc; cases p a <;> simp
  rw [List.dropWhile_cons, if_pos ha] at h
  have := congrArg List.length h
  have hle := ((List.dropWhile_sublist p (l := t)).length_le)
  simp at this
  omega

theorem psEntryExec_eq_some {line : String} {uw cw : Int} {m1 m2 m3 m4 : List Char}
    (h : psEntryExec line uw cw = some (m1, m2, m3, m4)) :
    m1 = (line.data.dropWhile jsWhitespace).takeWhile isDigitChar ∧
    m1 ≠ [] ∧ m1.all isDigitChar = true ∧
    matchTail (fieldPat uw) (fieldPat cw)
      ((line.data.dropWhile jsWhitespace).dropWhile isDigitChar) = some (m2, m3, m4) := by
  simp only [psEntryExec] at h
  cases hd : (line.data.dropWhile jsWhitespace).takeWhile isDigitChar with
  | nil => rw [hd] at h; exact absurd h (by simp)
  | cons a t =>
    rw [hd] at h
    cases hm : matchTail (fieldPat uw) (fieldPat cw)
        ((line.data.dropWhile jsWhitespace).dropWhile isDigitChar) with
    | none => rw [hm] at h; exact absurd h (by simp)
    | some g =>
      obtain ⟨b2, b3, b4⟩ := g
      rw [hm] at h
      simp only [Option.some.injEq, Prod.mk.injEq] at h
      obtain ⟨h1, h2, h3, h4⟩ := h
      subst h1; subst h2; subst h3; subst h4
      refine ⟨rfl, by simp, ?_, rfl⟩
      refine List.all_eq_true.mpr fun x hx => List.mem_takeWhile_imp (l := line.data.dropWhile jsWhitespace) ?_
      rw [hd]; exact hx

theorem psEntryExec_decomp {line : String} {uw cw : Int} {m1 m2 m3 m4 : List Char}
    (h : psEntryExec line uw cw = some (m1, m2, m3, m4)) :
    ∃ w0 s1 s2 s3 : List Char,
      line.data = w0 ++ (m1 ++ (s1 ++ (m2 ++ (s2 ++ (m3 ++ (s3 ++ m4)))))) ∧
      w0.all jsWhitespace = true ∧
      m1 ≠ [] ∧ m1.all isDigitChar = true ∧
      s1 ≠ [] ∧ s1.all jsWhitespace = true ∧
      fieldShape (fieldPat uw) m2 ∧
      s2 ≠ [] ∧ s2.all jsWhitespace = true ∧
      fieldShape (fieldPat cw) m3 ∧
      s3 ≠ [] ∧ s3.all jsWhitespace = true ∧
      m4.all jsDot = true := by
  obtain ⟨hm1, hne, hdig, htail⟩ := psEntryExec_eq_some h
  obtain ⟨s1, s2, s3, heq, hs1n, hs1w, hs2n, hs2w, hs3n, hs3w, hf2, hf3, hdot⟩ :=
    matchTail_eq_some htail
  refine ⟨line.data.takeWhile jsWhitespace, s1, s2, s3, ?_, ?_, hne, hdig,
    hs1n, hs1w, hf2, hs2n, hs2w, hf3, hs3n, hs3w, hdot⟩
  · conv_lhs => rw [← List.takeWhile_append_dropWhile jsWhitespace line.data]
    congr 1
    conv_lhs =>
      rw [← List.takeWhile_append_dropWhile isDigitChar (line.data.dropWhile jsWhitespace)]
    rw [← hm1, heq]
  · exact List.all_eq_true.mpr fun x hx => List.mem_takeWhile_imp hx

/-! ## Trim lemmas -/

theorem jsTrim_of_all_not_ws {l : List Char}
    (h : ∀ c ∈ l, jsWhitespace c = false) : jsTrim l = l := by
  have h1 : l.dropWhile jsWhitespace = l := by
    cases l with
    | nil => rfl
    | cons a t => exact dropWhile_eq_self_of_head (h a (by simp))
  have h2 : l.reverse.dropWhile jsWhitespace = l.reverse := by
    cases hr : l.reverse with
    | nil => rfl
    | cons a t =>
      refine dropWhile_eq_self_of_head (h a ?_)
      have : a ∈ l.reverse := by rw [hr]; simp
      simpa using this
  simp [jsTrim, h1, h2]

theorem jsTrim_digits {l : List Char} (h : l.all isDigitChar = true) : jsTrim l = l :=
  jsTrim_of_all_not_ws fun c hc => isDigitChar_not_ws (List.all_eq_true.mp h c hc)

theorem jsTrim_length_le (l : List Char) : (jsTrim l).length ≤ l.length := by
  unfold jsTrim
  calc ((l.dropWhile jsWhitespace).reverse.dropWhile jsWhitespace).reverse.length
      = ((l.dropWhile jsWhitespace).reverse.dropWhile jsWhitespace).length := by
        simp
    _ ≤ (l.dropWhile jsWhitespace).reverse.length :=
        (List.dropWhile_sublist jsWhitespace).length_le
    _ = (l.dropWhile jsWhitespace).length := by simp
    _ ≤ l.length := (List.dropWhile_sublist jsWhitespace).length_le

theorem dropWhile_dropWhile (p : Char → Bool) (l : List Char) :
    (l.dropWhile p).dropWhile p = l.dropWhile p := by
  induction l with
  | nil => rfl
  | cons a t ih =>
    rw [List.dropWhile_cons]
    split
    · exact ih
    · next hp => exact dropWhile_eq_self_of_head (by revert hp; cases p a <;> simp)

theorem jsTrim_fix (l : List Char) : jsTrim (jsTrim l) = jsTrim l := by
  set A := l.dropWhile jsWhitespace with hA
  set B := A.reverse.dropWhile jsWhitespace with hB
  have htl : jsTrim l = B.reverse := rfl
  -- B.reverse is a prefix of A, and A's head (if any) is not whitespace,
  -- so the leading dropWhile leaves B.reverse unchanged.
  have hstep1 : B.reverse.dropWhile jsWhitespace = B.reverse := by
    obtain ⟨t, ht⟩ := (List.dropWhile_suffix jsWhitespace (l := A.reverse))
    rw [← hB] at ht
    have hA' : A = B.reverse ++ t.reverse := by
      have h' := congrArg List.reverse ht
      rw [List.reverse_append, List.reverse_reverse] at h'
      exact h'.symm
    cases hBr : B.reverse with
    | nil => rfl
    | cons c cs =>
      have hchar : jsWhitespace c = false := by
        rcases hcA : A with _ | ⟨a, t'⟩
        · rw [hcA, hBr] at hA'; simp at hA'
        · have hhead : a = c := by
            rw [hcA, hBr] at hA'
            simpa using congrArg (List.headI) hA'
          have : jsWhitespace a = false := by
            apply head_false_of_dropWhile_eq_self (p := jsWhitespace)
            rw [← hcA, hA]
            exact dropWhile_dropWhile jsWhitespace l
          rwa [hhead] at this
      exact dropWhile_eq_self_of_head hchar
  have hstep2 : (B.reverse).reverse.dropWhile jsWhitespace = (B.reverse).reverse := by
    simp only [List.reverse_reverse]
    rw [hB]
    exact dropWhile_dropWhile jsWhitespace A.reverse
  rw [htl]
  unfold jsTrim
  rw [hstep1, hstep2]
  simp

/-! ## Claim C4 -/

/-- C4: with the configured widths 20 and 50, `parseLineFromPs` applied to
the sample line recovers pid 1, username `root`, executable `systemd`
and command line `/sbin/init` (the record carries them as
`label = "root:systemd"`, `description = "1"`, `detail = "/sbin/init"`). -/
theorem C4_sample_line_parses :
    parseLineFromPs
      "    1 root                 systemd                                            /sbin/init"
      20 50 =
    some { pid := 1, label := "root:systemd", description := "1", detail := "/sbin/init" } := by
  rfl

/-! ## Claims C7 and C8 -/

/-- C7: whenever `chooseProcess` succeeds with item `p`, `pickProcess`
returns exactly the string `"{pid}:{label}"`; in particular a chosen item
with pid 42 and label `root:systemd` yields `"42:root:systemd"`. -/
theorem C7_pickProcess_format (res : ExecResult)
    (showQuickPick : List ProcessItem → Option ProcessItem) (p : ProcessItem)
    (h : chooseProcess res showQuickPick = Except.ok p) :
    pickProcess res showQuickPick = Except.ok (numberToString p.pid ++ ":" ++ p.label) ∧
    (p.pid = 42 → p.label = "root:systemd" →
      pickProcess res showQuickPick = Except.ok "42:root:systemd") := by
  have h1 : pickProcess res showQuickPick =
      Except.ok (numberToString p.pid ++ ":" ++ p.label) := by
    unfold pickProcess
    rw [h]
  refine ⟨h1, fun hp hl => ?_⟩
  rw [h1, hp, hl]
  rfl

/-- Witness for C7 at concrete inputs. -/
theorem C7_pickProcess_format_witness :
    pickProcess ⟨false, "", ""⟩
      (fun _ => some ⟨42, "root:systemd", "42", ""⟩) = Except.ok "42:root:systemd" :=
  (C7_pickProcess_format ⟨false, "", ""⟩
    (fun _ => some ⟨42, "root:systemd", "42", ""⟩)
    ⟨42, "root:systemd", "42", ""⟩ rfl).2 rfl rfl

/-- C8: whenever the QuickPick facility reports that nothing was chosen,
`chooseProcess` fails with the `Process not selected` error (it never
returns a success in that case). -/
theorem C8_cancel_is_error (res : ExecResult)
    (showQuickPick : List ProcessItem → Option ProcessItem) (items : List ProcessItem)
    (h1 : getAttachItems res = Except.ok items) (h2 : showQuickPick items = none) :
    chooseProcess res showQuickPick = Except.error "Process not selected" := by
  have hred : chooseProcess res showQuickPick =
      match showQuickPick items with
      | none => Except.error "Process not selected"
      | some process => Except.ok process := by
    unfold chooseProcess
    rw [h1]
  rw [hred, h2]

/-- Witness for C8 at concrete inputs. -/
theorem C8_cancel_is_error_witness :
    chooseProcess ⟨false, "", ""⟩ (fun _ => none) = Except.error "Process not selected" :=
  C8_cancel_is_error ⟨false, "", ""⟩ (fun _ => none) [] rfl rfl

/-! ## Claim C1 -/

theorem hasInfix_ne_nil {needle l : List Char} (hn : needle ≠ [])
    (h : hasInfix needle l = true) : l ≠ [] := by
  cases l with
  | nil =>
    exfalso
    rw [hasInfix] at h
    exact hn (List.isEmpty_iff.mp h)
  | cons a t => simp

/-- C1 counterexample: the stderr text `"x screen size is bogus"` is
non-empty and is not exactly the benign substring, yet `getAttachItems`
succeeds, because the source only tests `stderr.includes(...)`. -/
theorem C1_counterexample_contains :
    getAttachItems ⟨false, "", "x screen size is bogus"⟩ = Except.ok [] := by
  rfl

/-- C1 (amended): `getAttachItems` succeeds whenever the diagnostic text
contains the substring `screen size is bogus` anywhere (regardless of
any other diagnostic text), and fails with the
`Unable to select process to attach to: …` error carrying the
diagnostic text whenever the diagnostic text is non-empty and does not
contain that substring, even when `error` indicates success. -/
theorem C1_amended_stderr_policy (res : ExecResult) :
    (hasInfix screenSizeBogus.data res.stderr.data = true →
      getAttachItems res = Except.ok (attachLoop ((splitLines res.stdout.data).drop 1))) ∧
    (res.stderr.data ≠ [] → hasInfix screenSizeBogus.data res.stderr.data = false →
      getAttachItems res =
        Except.error ("Unable to select process to attach to: " ++ res.stderr)) := by
  constructor
  · intro h
    have hne : res.stderr.data ≠ [] := hasInfix_ne_nil (by simp [screenSizeBogus]) h
    have hemp : res.stderr.data.isEmpty = false := by
      cases hd : res.stderr.data with
      | nil => exact absurd hd hne
      | cons a t => rfl
    unfold getAttachItems
    rw [hemp, h]
    simp
  · intro hne h
    have hemp : res.stderr.data.isEmpty = false := by
      cases hd : res.stderr.data with
      | nil => exact absurd hd hne
      | cons a t => rfl
    unfold getAttachItems
    rw [hemp, h]
    simp

/-- Witness for C1 (amended) at concrete inputs: a stderr consisting of
the benign substring is ignored; a stderr `"oops"` aborts with the
error message carrying it. -/
theorem C1_amended_stderr_policy_witness :
    getAttachItems ⟨false, "", "screen size is bogus"⟩ = Except.ok [] ∧
    getAttachItems ⟨false, "", "oops"⟩ =
      Except.error ("Unable to select process to attach to: " ++ "oops") :=
  ⟨(C1_amended_stderr_policy ⟨false, "", "screen size is bogus"⟩).1 rfl,
   (C1_amended_stderr_policy ⟨false, "", "oops"⟩).2 (by simp) rfl⟩

/-! ## Claim C6 -/

theorem attachLoop_eq_filterMap (ls : List (List Char)) :
    attachLoop ls = ls.filterMap
      (fun l => parseLineFromPs (String.mk l) usernameCharacters commandCharacters) := by
  induction ls with
  | nil => rfl
  | cons l rest ih =>
    rw [attachLoop, List.filterMap_cons]
    by_cases hl : l = []
    · subst hl
      rw [if_pos rfl, ih]
      have hnone : parseLineFromPs (String.mk []) usernameCharacters commandCharacters =
          none := rfl
      rw [hnone]
    · rw [if_neg hl]
      cases hp : parseLineFromPs (String.mk l) usernameCharacters commandCharacters with
      | none => simp only [hp, ih]
      | some e => simp only [hp, ih]

/-- C6: every successful `getAttachItems` run returns exactly the records
obtained by splitting the captured stdout on newlines, discarding the
first (header) line unconditionally, and collecting, in source order,
the lines that `parseLineFromPs` (at the same configured widths) parses —
empty lines and no-match lines are silently dropped. -/
theorem C6_lister_pipeline (res : ExecResult) (items : List ProcessItem)
    (h : getAttachItems res = Except.ok items) :
    items = ((splitLines res.stdout.data).drop 1).filterMap
      (fun l => parseLineFromPs (String.mk l) usernameCharacters commandCharacters) := by
  have hloop : items = attachLoop ((splitLines res.stdout.data).drop 1) := by
    unfold getAttachItems at h
    split at h
    · split at h
      · simp only [Except.ok.injEq] at h
        exact h.symm
      · exact absurd h (by simp)
    · simp only [Except.ok.injEq] at h
      exact h.symm
  rw [hloop, attachLoop_eq_filterMap]

/-- Witness for C6: a two-line output whose header is discarded and whose
single data line parses. -/
theorem C6_lister_pipeline_witness :
    [({ pid := 1, label := "root:systemd", description := "1",
        detail := "/sbin/init" } : ProcessItem)] =
    ((splitLines ("HDR\n    1 root                 systemd                                            /sbin/init" : String).data).drop 1).filterMap
      (fun l => parseLineFromPs (String.mk l) usernameCharacters commandCharacters) :=
  C6_lister_pipeline
    ⟨false, "HDR\n    1 root                 systemd                                            /sbin/init", ""⟩
    [{ pid := 1, label := "root:systemd", description := "1", detail := "/sbin/init" }]
    rfl

/-! ## Claim C5 -/

/-- C5: for positive widths, any line strictly shorter than
`1 + 1 + (uw−1) + 1 + (cw−1) + 1 = uw + cw + 2` characters yields the
no-match signal: a successful structural match needs at least one pid
digit, three separator characters, and the two fixed-width fields. -/
theorem C5_short_line_no_match (line : String) (uw cw : Int)
    (h1 : 1 ≤ uw) (h2 : 1 ≤ cw) (h3 : (line.length : Int) < uw + cw + 2) :
    parseLineFromPs line uw cw = none := by
  cases hp : psEntryExec line uw cw with
  | none => unfold parseLineFromPs; rw [hp]
  | some q =>
    obtain ⟨m1, m2, m3, m4⟩ := q
    exfalso
    obtain ⟨w0, s1, s2, s3, heq, _, hm1ne, _, hs1ne, _, hf2, hs2ne, _, hf3, hs3ne, _, _⟩ :=
      psEntryExec_decomp hp
    have hfp2 : fieldPat uw = .fixed (uw - 1).toNat := by unfold fieldPat; rw [if_pos h1]
    have hfp3 : fieldPat cw = .fixed (cw - 1).toNat := by unfold fieldPat; rw [if_pos h2]
    rw [hfp2] at hf2
    rw [hfp3] at hf3
    have hl2 : m2.length = (uw - 1).toNat := hf2.1
    have hl3 : m3.length = (cw - 1).toNat := hf3.1
    have hlen := congrArg List.length heq
    simp only [List.length_append] at hlen
    have hm1 : 1 ≤ m1.length := List.length_pos.mpr hm1ne
    have hs1 : 1 ≤ s1.length := List.length_pos.mpr hs1ne
    have hs2 : 1 ≤ s2.length := List.length_pos.mpr hs2ne
    have hs3 : 1 ≤ s3.length := List.length_pos.mpr hs3ne
    have c1 : ((uw - 1).toNat : Int) = uw - 1 := Int.toNat_of_nonneg (by omega)
    have c2 : ((cw - 1).toNat : Int) = cw - 1 := Int.toNat_of_nonneg (by omega)
    have h3' : (line.data.length : Int) < uw + cw + 2 := h3
    omega

/-- Witness for C5 at a concrete short line. -/
theorem C5_short_line_no_match_witness :
    parseLineFromPs "short" 20 50 = none :=
  C5_short_line_no_match "short" 20 50 (by decide) (by decide) (by decide)

/-! ## Claim C10 -/

/-- C10: for every input line and every pair of integer width arguments
(non-positive included), the embedded `parseLineFromPs` is a total
function that either returns the no-match signal or returns the record
built from the four captured groups of a successful structural match;
the record branch is taken exactly when `psEntryExec` succeeds, and any
success decomposes the line into the shape the pattern describes. -/
theorem C10_parse_total_shape (line : String) (uw cw : Int) :
    parseLineFromPs line uw cw = none ∨
    ∃ m1 m2 m3 m4 : List Char,
      psEntryExec line uw cw = some (m1, m2, m3, m4) ∧
      parseLineFromPs line uw cw = some (mkProcessItem m1 m2 m3 m4) ∧
      ∃ w0 s1 s2 s3 : List Char,
        line.data = w0 ++ (m1 ++ (s1 ++ (m2 ++ (s2 ++ (m3 ++ (s3 ++ m4)))))) ∧
        w0.all jsWhitespace = true ∧
        m1 ≠ [] ∧ m1.all isDigitChar = true ∧
        s1 ≠ [] ∧ s1.all jsWhitespace = true ∧
        fieldShape (fieldPat uw) m2 ∧
        s2 ≠ [] ∧ s2.all jsWhitespace = true ∧
        fieldShape (fieldPat cw) m3 ∧
        s3 ≠ [] ∧ s3.all jsWhitespace = true ∧
        m4.all jsDot = true := by
  cases hp : psEntryExec line uw cw with
  | none =>
    left
    unfold parseLineFromPs
    rw [hp]
  | some q =>
    obtain ⟨m1, m2, m3, m4⟩ := q
    right
    refine ⟨m1, m2, m3, m4, rfl, ?_, psEntryExec_decomp hp⟩
    unfold parseLineFromPs
    rw [hp]

/-! ## Decimal digit strings -/

theorem decAux_irrel (n : Nat) : ∀ (f g : Nat) (acc : List Char), n < f → n < g →
    decAux f n acc = decAux g n acc := by
  induction n using Nat.strong_induction_on with
  | _ n ih =>
    intro f g acc hf hg
    cases f with
    | zero => omega
    | succ f' =>
      cases g with
      | zero => omega
      | succ g' =>
        simp only [decAux]
        by_cases h10 : n < 10
        · simp [h10]
        · simp only [if_neg h10]
          exact ih (n / 10) (by omega) f' g' _ (by omega) (by omega)

theorem decAux_append (f : Nat) : ∀ (n : Nat) (acc : List Char),
    decAux f n acc = decAux f n [] ++ acc := by
  induction f with
  | zero => intro n acc; simp [decAux]
  | succ f' ih =>
    intro n acc
    simp only [decAux]
    by_cases h10 : n < 10
    · simp [h10]
    · simp only [if_neg h10]
      rw [ih (n / 10) (digitChar (n % 10) :: acc), ih (n / 10) [digitChar (n % 10)]]
      simp

theorem numberToString_lt10 {n : Nat} (h : n < 10) :
    (numberToString n).data = [digitChar n] := by
  simp [numberToString, decAux, h]

theorem numberToString_ge10 {n : Nat} (h : 10 ≤ n) :
    (numberToString n).data =
      (numberToString (n / 10)).data ++ [digitChar (n % 10)] := by
  show decAux (n + 1) n [] = decAux (n / 10 + 1) (n / 10) [] ++ [digitChar (n % 10)]
  have h1 : decAux (n + 1) n [] = decAux n (n / 10) [digitChar (n % 10)] := by
    simp only [decAux]
    rw [if_neg (by omega)]
  rw [h1, decAux_append, decAux_irrel (n / 10) n (n / 10 + 1) [] (by omega) (by omega)]

theorem digitChar_toNat {d : Nat} (h : d < 10) : (digitChar d).toNat = 48 + d := by
  interval_cases d <;> decide

theorem digitChar_isDigit {d : Nat} (h : d < 10) : isDigitChar (digitChar d) = true := by
  interval_cases d <;> decide

theorem digitChar_of_isDigit {c : Char} (h : isDigitChar c = true) :
    digitChar (c.toNat - 48) = c ∧ c.toNat - 48 < 10 := by
  simp only [isDigitChar, Bool.and_eq_true, decide_eq_true_eq] at h
  refine ⟨?_, by omega⟩
  have h48 : 48 + (c.toNat - 48) = c.toNat := by omega
  rw [digitChar, h48]
  exact Char.ofNat_toNat c

theorem natOfDigits_append_digit (l : List Char) (c : Char) :
    natOfDigits (l ++ [c]) = 10 * natOfDigits l + (c.toNat - 48) := by
  unfold natOfDigits
  rw [List.foldl_append]
  rfl

theorem natOfDigits_numberToString (n : Nat) :
    natOfDigits (numberToString n).data = n := by
  induction n using Nat.strong_induction_on with
  | _ n ih =>
    by_cases h10 : n < 10
    · rw [numberToString_lt10 h10]
      show 10 * 0 + ((digitChar n).toNat - 48) = n
      rw [digitChar_toNat h10]
      omega
    · rw [numberToString_ge10 (by omega), natOfDigits_append_digit,
        ih (n / 10) (by omega), digitChar_toNat (by omega)]
      omega

theorem numberToString_all_digits (n : Nat) :
    (numberToString n).data.all isDigitChar = true := by
  induction n using Nat.strong_induction_on with
  | _ n ih =>
    by_cases h10 : n < 10
    · rw [numberToString_lt10 h10]
      simp [digitChar_isDigit h10]
    · rw [numberToString_ge10 (by omega), List.all_append]
      simp [ih (n / 10) (by omega), digitChar_isDigit (show n % 10 < 10 by omega)]

theorem numberToString_ne_nil (n : Nat) : (numberToString n).data ≠ [] := by
  by_cases h10 : n < 10
  · rw [numberToString_lt10 h10]; simp
  · rw [numberToString_ge10 (by omega)]; simp

theorem foldl_digits_ge {t : List Char} : ∀ {a : Nat}, 1 ≤ a →
    1 ≤ t.foldl (fun a c => 10 * a + (c.toNat - 48)) a := by
  induction t with
  | nil => intro a ha; simpa using ha
  | cons c t ih =>
    intro a ha
    simp only [List.foldl_cons]
    exact ih (by omega)

theorem natOfDigits_pos {l : List Char} (hne : l ≠ []) (hdig : l.all isDigitChar = true)
    (hh : l.head? ≠ some '0') : 1 ≤ natOfDigits l := by
  cases l with
  | nil => exact absurd rfl hne
  | cons a t =>
    simp only [List.all_cons, Bool.and_eq_true] at hdig
    have ha0 : a ≠ '0' := by
      intro heq
      exact hh (by rw [heq]; rfl)
    have hav : 49 ≤ a.toNat := by
      have hd := digitChar_of_isDigit hdig.1
      have h48 : isDigitChar a = true := hdig.1
      simp only [isDigitChar, Bool.and_eq_true, decide_eq_true_eq] at h48
      rcases Nat.lt_or_ge a.toNat 49 with hlt | hge
      · exfalso
        have h0 : a.toNat - 48 = 0 := by omega
        rw [h0] at hd
        apply ha0
        rw [← hd.1]
        decide
      · exact hge
    show 1 ≤ t.foldl (fun a c => 10 * a + (c.toNat - 48)) (10 * 0 + (a.toNat - 48))
    exact foldl_digits_ge (by omega)

theorem digits_unique {ds : List Char} (hne : ds ≠ []) (hdig : ds.all isDigitChar = true)
    (hlead : ds.head? ≠ some '0' ∨ ds = ['0']) :
    (numberToString (natOfDigits ds)).data = ds := by
  induction ds using List.reverseRecOn with
  | nil => exact absurd rfl hne
  | append_singleton l c ihl =>
    have hdig' : l.all isDigitChar = true ∧ isDigitChar c = true := by
      rw [List.all_append] at hdig
      simp only [Bool.and_eq_true] at hdig
      exact ⟨hdig.1, by simpa using hdig.2⟩
    obtain ⟨hcd, hclt⟩ := digitChar_of_isDigit hdig'.2
    by_cases hl : l = []
    · subst hl
      simp only [List.nil_append]
      rw [show natOfDigits [c] = c.toNat - 48 from by
        show 10 * 0 + (c.toNat - 48) = c.toNat - 48; omega]
      rw [numberToString_lt10 hclt, hcd]
    · have hhead : (l ++ [c]).head? = l.head? := by
        cases l with
        | nil => exact absurd rfl hl
        | cons a t => rfl
      have hlead' : l.head? ≠ some '0' := by
        rcases hlead with h | h
        · rw [hhead] at h; exact h
        · exfalso
          have hlen := congrArg List.length h
          simp at hlen
          exact hl hlen
      have hpos : 1 ≤ natOfDigits l := natOfDigits_pos hl hdig'.1 hlead'
      have hval : natOfDigits (l ++ [c]) = 10 * natOfDigits l + (c.toNat - 48) :=
        natOfDigits_append_digit l c
      have hge : 10 ≤ natOfDigits (l ++ [c]) := by omega
      rw [numberToString_ge10 hge, hval]
      have hdiv : (10 * natOfDigits l + (c.toNat - 48)) / 10 = natOfDigits l := by omega
      have hmod : (10 * natOfDigits l + (c.toNat - 48)) % 10 = c.toNat - 48 := by omega
      rw [hdiv, hmod, hcd, ihl hl hdig'.1 (Or.inl hlead')]

/-! ## Claim C2 -/

/-- C2 counterexample: a line whose pid column reads `01` parses to a
record with `pid = 1` but `description = "01"`, which is not the decimal
string form `"1"` of the pid: the source stores the matched digit text,
not a re-rendering of the number. -/
theorem C2_counterexample_leading_zero :
    parseLineFromPs
      "   01 root                 systemd                                            /sbin/init"
      20 50 =
      some { pid := 1, label := "root:systemd", description := "01",
             detail := "/sbin/init" } ∧
    ("01" : String) ≠ numberToString 1 := by
  exact ⟨rfl, by decide⟩

/-- C2 (amended): for every record returned by `parseLineFromPs`, the
`description` field is the matched pid digit string: it is a non-empty
all-digit string whose decimal value equals the record's `pid`, and it
equals the decimal string form of `pid` whenever it carries no redundant
leading zero (i.e. it is `"0"` or does not start with `'0'`). -/
theorem C2_amended_description (line : String) (uw cw : Int) (r : ProcessItem)
    (h : parseLineFromPs line uw cw = some r) :
    natOfDigits r.description.data = r.pid ∧
    r.description.data ≠ [] ∧
    r.description.data.all isDigitChar = true ∧
    ((r.description.data.head? ≠ some '0' ∨ r.description.data = ['0']) →
      r.description = numberToString r.pid) := by
  unfold parseLineFromPs at h
  cases hp : psEntryExec line uw cw with
  | none => rw [hp] at h; exact absurd h (by simp)
  | some q =>
    obtain ⟨m1, m2, m3, m4⟩ := q
    rw [hp] at h
    simp only [Option.some.injEq] at h
    subst h
    obtain ⟨-, hne, hdig, -⟩ := psEntryExec_eq_some hp
    have htr : jsTrim m1 = m1 := jsTrim_digits hdig
    have hdesc : (mkProcessItem m1 m2 m3 m4).description = String.mk m1 := by
      simp [mkProcessItem, htr]
    have hpid : (mkProcessItem m1 m2 m3 m4).pid = natOfDigits m1 := by
      simp [mkProcessItem, htr]
    rw [hdesc, hpid]
    refine ⟨rfl, hne, hdig, fun hlead => ?_⟩
    have := digits_unique hne hdig hlead
    calc String.mk m1 = String.mk (numberToString (natOfDigits m1)).data := by rw [this]
      _ = numberToString (natOfDigits m1) := rfl

/-- Witness for C2 (amended) at the sample line. -/
theorem C2_amended_description_witness :
    natOfDigits ("1" : String).data = 1 ∧
    ("1" : String).data ≠ [] ∧
    ("1" : String).data.all isDigitChar = true ∧
    ((("1" : String).data.head? ≠ some '0' ∨ ("1" : String).data = ['0']) →
      ("1" : String) = numberToString 1) :=
  C2_amended_description
    "    1 root                 systemd                                            /sbin/init"
    20 50 { pid := 1, label := "root:systemd", description := "1", detail := "/sbin/init" }
    rfl

/-! ## Claim C9 -/

/-- C9 counterexample: with width arguments 0 the interpolated group
pattern reads `(.\x7b-1\x7d)` with a literal brace (invalid quantifier
syntax falls back to literal characters), a line containing that literal
text parses, and the resulting trimmed username capture has length 5,
which is not at most `0 − 1`. -/
theorem C9_counterexample_literal_brace :
    psEntryExec "1 a\x7b-1\x7d b\x7b-1\x7d c" 0 0 =
      some (("1" : String).data, ("a\x7b-1\x7d" : String).data,
            ("b\x7b-1\x7d" : String).data, ("c" : String).data) ∧
    parseLineFromPs "1 a\x7b-1\x7d b\x7b-1\x7d c" 0 0 =
      some { pid := 1, label := "a\x7b-1\x7d:b\x7b-1\x7d", description := "1",
             detail := "c" } ∧
    ¬(((jsTrim ("a\x7b-1\x7d" : String).data).length : Int) ≤ 0 - 1) := by
  refine ⟨rfl, rfl, by decide⟩

/-- C9 (amended): for positive widths, every record returned by
`parseLineFromPs` comes from a structural match whose trimmed username
has length at most `uw − 1`, whose trimmed executable has length at most
`cw − 1`, and whose trimmed username, executable and command line are
all invariant under a further trim (no surrounding whitespace); the
record's `label` and `detail` are assembled from exactly those trimmed
captures. -/
theorem C9_field_invariants (line : String) (uw cw : Int) (r : ProcessItem)
    (h1 : 1 ≤ uw) (h2 : 1 ≤ cw) (h : parseLineFromPs line uw cw = some r) :
    ∃ m1 m2 m3 m4 : List Char,
      psEntryExec line uw cw = some (m1, m2, m3, m4) ∧
      r = mkProcessItem m1 m2 m3 m4 ∧
      r.label = String.mk (jsTrim m2 ++ ':' :: jsTrim m3) ∧
      r.detail = String.mk (jsTrim m4) ∧
      ((jsTrim m2).length : Int) ≤ uw - 1 ∧
      ((jsTrim m3).length : Int) ≤ cw - 1 ∧
      jsTrim (jsTrim m2) = jsTrim m2 ∧
      jsTrim (jsTrim m3) = jsTrim m3 ∧
      jsTrim (jsTrim m4) = jsTrim m4 := by
  unfold parseLineFromPs at h
  cases hp : psEntryExec line uw cw with
  | none => rw [hp] at h; exact absurd h (by simp)
  | some q =>
    obtain ⟨m1, m2, m3, m4⟩ := q
    rw [hp] at h
    simp only [Option.some.injEq] at h
    subst h
    obtain ⟨-, -, -, htail⟩ := psEntryExec_eq_some hp
    obtain ⟨s1, s2, s3, -, -, -, -, -, -, -, hf2, hf3, -⟩ := matchTail_eq_some htail
    have hfp2 : fieldPat uw = .fixed (uw - 1).toNat := by unfold fieldPat; rw [if_pos h1]
    have hfp3 : fieldPat cw = .fixed (cw - 1).toNat := by unfold fieldPat; rw [if_pos h2]
    rw [hfp2] at hf2
    rw [hfp3] at hf3
    have hb2 : ((jsTrim m2).length : Int) ≤ uw - 1 := by
      have hle := jsTrim_length_le m2
      have hl2 : m2.length = (uw - 1).toNat := hf2.1
      have hcast : ((uw - 1).toNat : Int) = uw - 1 := Int.toNat_of_nonneg (by omega)
      omega
    have hb3 : ((jsTrim m3).length : Int) ≤ cw - 1 := by
      have hle := jsTrim_length_le m3
      have hl3 : m3.length = (cw - 1).toNat := hf3.1
      have hcast : ((cw - 1).toNat : Int) = cw - 1 := Int.toNat_of_nonneg (by omega)
      omega
    exact ⟨m1, m2, m3, m4, rfl, rfl, rfl, rfl, hb2, hb3,
      jsTrim_fix m2, jsTrim_fix m3, jsTrim_fix m4⟩

/-- Witness for C9 (amended) at the sample line. -/
theorem C9_field_invariants_witness :
    ∃ m1 m2 m3 m4 : List Char,
      psEntryExec
        "    1 root                 systemd                                            /sbin/init"
        20 50 = some (m1, m2, m3, m4) ∧
      ({ pid := 1, label := "root:systemd", description := "1",
         detail := "/sbin/init" } : ProcessItem) = mkProcessItem m1 m2 m3 m4 ∧
      ({ pid := 1, label := "root:systemd", description := "1",
         detail := "/sbin/init" } : ProcessItem).label =
        String.mk (jsTrim m2 ++ ':' :: jsTrim m3) ∧
      ({ pid := 1, label := "root:systemd", description := "1",
         detail := "/sbin/init" } : ProcessItem).detail = String.mk (jsTrim m4) ∧
      ((jsTrim m2).length : Int) ≤ 20 - 1 ∧
      ((jsTrim m3).length : Int) ≤ 50 - 1 ∧
      jsTrim (jsTrim m2) = jsTrim m2 ∧
      jsTrim (jsTrim m3) = jsTrim m3 ∧
      jsTrim (jsTrim m4) = jsTrim m4 :=
  C9_field_invariants
    "    1 root                 systemd                                            /sbin/init"
    20 50
    { pid := 1, label := "root:systemd", description := "1", detail := "/sbin/init" }
    (by decide) (by decide) rfl

/-! ## Claim C3: round trip over padded synthetic lines -/

theorem wsRun_cons_true {a : Char} {t : List Char} (ha : jsWhitespace a = true) :
    wsRun (a :: t) = 1 + wsRun t := by
  simp [wsRun, List.takeWhile_cons, ha]
  omega

theorem wsRun_cons_false {a : Char} {t : List Char} (ha : jsWhitespace a = false) :
    wsRun (a :: t) = 0 := by
  simp [wsRun, List.takeWhile_cons, ha]

theorem tryFrom_one {α} {k : Nat → Option α} {r : α} (h : k 1 = some r) :
    tryFrom k 1 = some r := by
  have hu : tryFrom k 1 = match k 1 with
    | some r => some r
    | none => tryFrom k 0 := rfl
  rw [hu, h]

theorem replicate_all_ws (k : Nat) : (List.replicate k ' ').all jsWhitespace = true := by
  have h : jsWhitespace ' ' = true := by decide
  simp [List.all_replicate, h]

theorem replicate_all_dot (k : Nat) : (List.replicate k ' ').all jsDot = true := by
  have h : jsDot ' ' = true := by decide
  simp [List.all_replicate, h]

theorem matchField_fixed_padded {n : Nat} {u X : List Char} (hlen : u.length ≤ n)
    (hdot : u.all jsDot = true) :
    matchField (.fixed n) (u ++ (List.replicate (n + 1 - u.length) ' ' ++ X)) =
      some (u ++ List.replicate (n - u.length) ' ', ' ' :: X) := by
  have htake : (u ++ (List.replicate (n + 1 - u.length) ' ' ++ X)).take n =
      u ++ List.replicate (n - u.length) ' ' := by
    rw [List.take_append_eq_append_take, List.take_of_length_le hlen,
      List.take_append_eq_append_take, List.take_replicate]
    have h1 : min (n - u.length) (n + 1 - u.length) = n - u.length := by omega
    have h2 : n - u.length - (List.replicate (n + 1 - u.length) ' ').length = 0 := by
      simp [List.length_replicate]
      omega
    rw [h1, h2]
    simp
  have hdrop : (u ++ (List.replicate (n + 1 - u.length) ' ' ++ X)).drop n = ' ' :: X := by
    rw [List.drop_append_eq_append_drop, List.drop_of_length_le hlen,
      List.drop_append_eq_append_drop, List.drop_replicate]
    have h1 : n + 1 - u.length - (n - u.length) = 1 := by omega
    have h2 : n - u.length - (List.replicate (n + 1 - u.length) ' ').length = 0 := by
      simp [List.length_replicate]
      omega
    rw [h1, h2]
    simp [List.replicate_succ]
  have hcond : (((u ++ (List.replicate (n + 1 - u.length) ' ' ++ X)).take n).length = n &&
      ((u ++ (List.replicate (n + 1 - u.length) ' ' ++ X)).take n).all jsDot) = true := by
    rw [htake]
    simp only [List.length_append, List.length_replicate, List.all_append, hdot,
      replicate_all_dot, Bool.and_true, Bool.true_and]
    simp
    omega
  simp only [matchField]
  rw [if_pos hcond, htake, hdrop]

theorem jsTrim_id {l : List Char} (h1 : l.dropWhile jsWhitespace = l)
    (h2 : l.reverse.dropWhile jsWhitespace = l.reverse) : jsTrim l = l := by
  unfold jsTrim
  rw [h1, h2, List.reverse_reverse]

theorem jsTrim_pad {u : List Char} {k : Nat} (hun : u ≠ [])
    (h1 : u.dropWhile jsWhitespace = u)
    (h2 : u.reverse.dropWhile jsWhitespace = u.reverse) :
    jsTrim (u ++ List.replicate k ' ') = u := by
  have hfront : (u ++ List.replicate k ' ').dropWhile jsWhitespace =
      u ++ List.replicate k ' ' := by
    obtain ⟨a, t, rfl⟩ := List.exists_cons_of_ne_nil hun
    rw [List.cons_append]
    exact dropWhile_eq_self_of_head (head_false_of_dropWhile_eq_self h1)
  unfold jsTrim
  rw [hfront, List.reverse_append, List.reverse_replicate,
    dropWhile_append_all (replicate_all_ws k), h2, List.reverse_reverse]

theorem matchTail_padded (n m : Nat) (u e c : List Char)
    (hun : u ≠ []) (hen : e ≠ [])
    (hu1 : u.dropWhile jsWhitespace = u)
    (he1 : e.dropWhile jsWhitespace = e)
    (hc1 : c.dropWhile jsWhitespace = c)
    (hudot : u.all jsDot = true) (hedot : e.all jsDot = true) (hcdot : c.all jsDot = true)
    (hul : u.length ≤ n) (hel : e.length ≤ m) :
    matchTail (.fixed n) (.fixed m)
      (' ' :: (u ++ (List.replicate (n + 1 - u.length) ' ' ++
        (e ++ (List.replicate (m + 1 - e.length) ' ' ++ c))))) =
      some (u ++ List.replicate (n - u.length) ' ',
            e ++ List.replicate (m - e.length) ' ', c) := by
  -- whitespace runs at the three separator positions all have length 1
  have hwsc : wsRun (' ' :: c) = 1 := by
    rw [wsRun_cons_true (by decide)]
    cases c with
    | nil => rfl
    | cons b t => rw [wsRun_cons_false (head_false_of_dropWhile_eq_self hc1)]
  have hwse : wsRun (' ' :: (e ++ (List.replicate (m + 1 - e.length) ' ' ++ c))) = 1 := by
    rw [wsRun_cons_true (by decide)]
    obtain ⟨b, t, rfl⟩ := List.exists_cons_of_ne_nil hen
    rw [List.cons_append,
      wsRun_cons_false (head_false_of_dropWhile_eq_self he1)]
  have hwsu : wsRun (' ' :: (u ++ (List.replicate (n + 1 - u.length) ' ' ++
      (e ++ (List.replicate (m + 1 - e.length) ' ' ++ c))))) = 1 := by
    rw [wsRun_cons_true (by decide)]
    obtain ⟨a, t, rfl⟩ := List.exists_cons_of_ne_nil hun
    rw [List.cons_append,
      wsRun_cons_false (head_false_of_dropWhile_eq_self hu1)]
  -- innermost step: `(.*)$` takes the command line
  have hstep3 : tailStep3 (u ++ List.replicate (n - u.length) ' ')
      (e ++ List.replicate (m - e.length) ' ') (' ' :: c) 1 =
      some (u ++ List.replicate (n - u.length) ' ',
            e ++ List.replicate (m - e.length) ' ', c) := by
    unfold tailStep3
    simp [hcdot]
  have hstep2 : tailStep2 (.fixed m) (u ++ List.replicate (n - u.length) ' ')
      (' ' :: (e ++ (List.replicate (m + 1 - e.length) ' ' ++ c))) 1 =
      some (u ++ List.replicate (n - u.length) ' ',
            e ++ List.replicate (m - e.length) ' ', c) := by
    unfold tailStep2
    have hd : (' ' :: (e ++ (List.replicate (m + 1 - e.length) ' ' ++ c))).drop 1 =
        e ++ (List.replicate (m + 1 - e.length) ' ' ++ c) := rfl
    rw [hd, matchField_fixed_padded hel hedot]
    show tryFrom (tailStep3 (u ++ List.replicate (n - u.length) ' ')
      (e ++ List.replicate (m - e.length) ' ') (' ' :: c)) (wsRun (' ' :: c)) =
      some (u ++ List.replicate (n - u.length) ' ',
            e ++ List.replicate (m - e.length) ' ', c)
    rw [hwsc]
    exact tryFrom_one hstep3
  have hstep1 : tailStep1 (.fixed n) (.fixed m)
      (' ' :: (u ++ (List.replicate (n + 1 - u.length) ' ' ++
        (e ++ (List.replicate (m + 1 - e.length) ' ' ++ c))))) 1 =
      some (u ++ List.replicate (n - u.length) ' ',
            e ++ List.replicate (m - e.length) ' ', c) := by
    unfold tailStep1
    have hd : (' ' :: (u ++ (List.replicate (n + 1 - u.length) ' ' ++
        (e ++ (List.replicate (m + 1 - e.length) ' ' ++ c))))).drop 1 =
        u ++ (List.replicate (n + 1 - u.length) ' ' ++
          (e ++ (List.replicate (m + 1 - e.length) ' ' ++ c))) := rfl
    rw [hd, matchField_fixed_padded hul hudot]
    show tryFrom (tailStep2 (.fixed m) (u ++ List.replicate (n - u.length) ' ')
      (' ' :: (e ++ (List.replicate (m + 1 - e.length) ' ' ++ c))))
      (wsRun (' ' :: (e ++ (List.replicate (m + 1 - e.length) ' ' ++ c)))) =
      some (u ++ List.replicate (n - u.length) ' ',
            e ++ List.replicate (m - e.length) ' ', c)
    rw [hwse]
    exact tryFrom_one hstep2
  unfold matchTail
  rw [hwsu]
  exact tryFrom_one hstep1

theorem psEntryExec_digits_tail {line : String} {D R g2 g3 g4 : List Char} {uw cw : Int}
    (hdata : line.data = D ++ (' ' :: R))
    (hne : D ≠ []) (hdig : D.all isDigitChar = true)
    (htail : matchTail (fieldPat uw) (fieldPat cw) (' ' :: R) = some (g2, g3, g4)) :
    psEntryExec line uw cw = some (D, g2, g3, g4) := by
  have hws : (D ++ (' ' :: R)).dropWhile jsWhitespace = D ++ (' ' :: R) := by
    obtain ⟨d0, D', rfl⟩ := List.exists_cons_of_ne_nil hne
    have hd0 : isDigitChar d0 = true := by
      simp only [List.all_cons, Bool.and_eq_true] at hdig
      exact hdig.1
    rw [List.cons_append]
    exact dropWhile_eq_self_of_head (isDigitChar_not_ws hd0)
  have hsp : isDigitChar ' ' = false := by decide
  simp only [psEntryExec]
  rw [hdata, hws, takeWhile_all_append hdig hsp, dropWhile_all_append_cons hdig hsp]
  obtain ⟨d0, D', rfl⟩ := List.exists_cons_of_ne_nil hne
  show (match matchTail (fieldPat uw) (fieldPat cw) (' ' :: R) with
    | none => none
    | some (m2, m3, m4) => some (d0 :: D', m2, m3, m4)) = some (d0 :: D', g2, g3, g4)
  rw [htail]

/-- C3 (amended): for every record whose username and executable are
non-empty, whose username, executable and command line are trimmed
(no surrounding whitespace), contain no line terminators, and whose
username and executable fit in the captured field widths
(`≤ uw − 1` and `≤ cw − 1` respectively), parsing the synthetic line
built by padding the fields to exactly the configured column widths
recovers the original pid, username, executable and command line. -/
theorem C3_roundtrip_padded (n m pid : Nat) (u e c : String)
    (hun : u.data ≠ []) (hen : e.data ≠ [])
    (hu1 : u.data.dropWhile jsWhitespace = u.data)
    (hu2 : u.data.reverse.dropWhile jsWhitespace = u.data.reverse)
    (he1 : e.data.dropWhile jsWhitespace = e.data)
    (he2 : e.data.reverse.dropWhile jsWhitespace = e.data.reverse)
    (hc1 : c.data.dropWhile jsWhitespace = c.data)
    (hc2 : c.data.reverse.dropWhile jsWhitespace = c.data.reverse)
    (hudot : u.data.all jsDot = true) (hedot : e.data.all jsDot = true)
    (hcdot : c.data.all jsDot = true)
    (hul : u.data.length ≤ n) (hel : e.data.length ≤ m) :
    parseLineFromPs (synthLine pid u e c (n + 1) (m + 1)) ((n : Int) + 1) ((m : Int) + 1) =
      some { pid := pid
           , label := String.mk (u.data ++ ':' :: e.data)
           , description := numberToString pid
           , detail := c } := by
  have hdata : (synthLine pid u e c (n + 1) (m + 1)).data =
      (numberToString pid).data ++
        (' ' :: (u.data ++ (List.replicate (n + 1 - u.data.length) ' ' ++
          (e.data ++ (List.replicate (m + 1 - e.data.length) ' ' ++ c.data))))) := by
    simp [synthLine, padTo, List.append_assoc]
  have hfpn : fieldPat ((n : Int) + 1) = .fixed n := by
    unfold fieldPat
    rw [if_pos (by omega)]
    congr 1
    omega
  have hfpm : fieldPat ((m : Int) + 1) = .fixed m := by
    unfold fieldPat
    rw [if_pos (by omega)]
    congr 1
    omega
  have htail := matchTail_padded n m u.data e.data c.data hun hen hu1 he1 hc1
    hudot hedot hcdot hul hel
  have hexec : psEntryExec (synthLine pid u e c (n + 1) (m + 1)) ((n : Int) + 1) ((m : Int) + 1) =
      some ((numberToString pid).data,
            u.data ++ List.replicate (n - u.data.length) ' ',
            e.data ++ List.replicate (m - e.data.length) ' ',
            c.data) := by
    apply psEntryExec_digits_tail hdata (numberToString_ne_nil pid)
      (numberToString_all_digits pid)
    rw [hfpn, hfpm]
    exact htail
  unfold parseLineFromPs
  rw [hexec]
  have htru : jsTrim (u.data ++ List.replicate (n - u.data.length) ' ') = u.data :=
    jsTrim_pad hun hu1 hu2
  have htre : jsTrim (e.data ++ List.replicate (m - e.data.length) ' ') = e.data :=
    jsTrim_pad hen he1 he2
  have htrc : jsTrim c.data = c.data := jsTrim_id hc1 hc2
  have htrD : jsTrim (numberToString pid).data = (numberToString pid).data :=
    jsTrim_digits (numberToString_all_digits pid)
  simp only [mkProcessItem, htru, htre, htrc, htrD]
  rw [natOfDigits_numberToString]

/-- C3 counterexample: for the record with pid 1, empty username,
executable `"y"` and command line of 49 `a`s, a space and `"z"`, the
synthetic line padded to the configured widths 20 and 50 does parse,
but greedy matching re-assigns the columns: the parsed record has
username `"y"`, executable the 49 `a`s and command line `"z"`, which is
not the original record's field assignment. -/
theorem C3_counterexample_empty_username :
    parseLineFromPs
      (synthLine 1 "" "y" (String.mk (List.replicate 49 'a') ++ " z") 20 50) 20 50 =
      some { pid := 1
           , label := String.mk ('y' :: ':' :: List.replicate 49 'a')
           , description := "1"
           , detail := "z" } ∧
    ({ pid := 1
     , label := String.mk ('y' :: ':' :: List.replicate 49 'a')
     , description := "1"
     , detail := "z" } : ProcessItem) ≠
    { pid := 1
    , label := String.mk ("".data ++ ':' :: ("y" : String).data)
    , description := "1"
    , detail := String.mk (List.replicate 49 'a') ++ " z" } := by
  exact ⟨rfl, by decide⟩

/-- Witness for C3 (amended) at pid 1, username `root`, executable
`systemd`, command line `/sbin/init`, widths 20 and 50. -/
theorem C3_roundtrip_padded_witness :
    parseLineFromPs (synthLine 1 "root" "systemd" "/sbin/init" 20 50) 20 50 =
      some { pid := 1, label := "root:systemd", description := "1",
             detail := "/sbin/init" } :=
  C3_roundtrip_padded 19 49 1 "root" "systemd" "/sbin/init"
    (by decide) (by decide) (by decide) (by decide) (by decide) (by decide)
    (by decide) (by decide) (by decide) (by decide) (by decide)
    (by decide) (by decide)
